import Mathlib

/-!
Shallow embedding of the tetris-tui core (src/lib.rs) and verification of the
specification's claims about collision testing, line clearing, scoring, level
progression, rotation, game-over detection, high-score recording and
multiplayer garbage-row injection.
-/

namespace TetrisTui

/-- Playing-field width, `PLAY_WIDTH` in the source. -/
def PLAY_WIDTH : Nat := 10

/-- Playing-field height, `PLAY_HEIGHT` in the source. -/
def PLAY_HEIGHT : Nat := 20

/-- Preview box width, `NEXT_WIDTH` in the source. -/
def NEXT_WIDTH : Nat := 6

/-- Maximum level constant, `MAX_LEVEL` in the source. -/
def MAX_LEVEL : Nat := 20

/-- Lines needed per level, `LINES_PER_LEVEL` in the source. -/
def LINES_PER_LEVEL : Nat := 20

/-- A cell's glyph: the source uses the strings `SPACE` ("   ") and
`SQUARE_BRACKETS` ("[ ]"); those are the only two values a cell's
`symbols` field ever takes. -/
inductive Sym where
  | space
  | squareBrackets
deriving DecidableEq, Repr

/-- Terminal colors used by the cell constants in the source. -/
inductive TermColor where
  | reset
  | cyan
  | yellow
  | rgb (r g b : Nat)
  | green
  | red
  | blue
deriving DecidableEq, Repr

/-- `Cell` from the source: a glyph plus a display color. -/
structure Cell where
  symbols : Sym
  color : TermColor
deriving DecidableEq, Repr

/-- `EMPTY_CELL` from the source. -/
def EMPTY_CELL : Cell := ⟨Sym.space, TermColor.reset⟩

/-- `I_CELL` from the source. -/
def I_CELL : Cell := ⟨Sym.squareBrackets, TermColor.cyan⟩

/-- `O_CELL` from the source. -/
def O_CELL : Cell := ⟨Sym.squareBrackets, TermColor.yellow⟩

/-- `T_CELL` from the source. -/
def T_CELL : Cell := ⟨Sym.squareBrackets, TermColor.rgb 207 159 255⟩

/-- `S_CELL` from the source. -/
def S_CELL : Cell := ⟨Sym.squareBrackets, TermColor.green⟩

/-- `Z_CELL` from the source. -/
def Z_CELL : Cell := ⟨Sym.squareBrackets, TermColor.red⟩

/-- `J_CELL` from the source. -/
def J_CELL : Cell := ⟨Sym.squareBrackets, TermColor.blue⟩

/-- `L_CELL` from the source. -/
def L_CELL : Cell := ⟨Sym.squareBrackets, TermColor.rgb 255 165 0⟩

/-- A cell counts as occupied when its glyph is `SQUARE_BRACKETS`; this is the
comparison `cell.symbols == SQUARE_BRACKETS` used throughout the source. -/
def isOccupied (c : Cell) : Bool := c.symbols == Sym.squareBrackets

/-- The play grid `play_grid: Vec<Vec<Cell>>`, row 0 at the top. -/
def Grid := List (List Cell)

instance : DecidableEq Grid := inferInstanceAs (DecidableEq (List (List Cell)))

/-- `Position` from the source; row and column are `isize`. -/
structure Position where
  row : Int
  col : Int
deriving DecidableEq, Repr

/-- `Tetromino` from the source: the list of rotation-state grids, the current
state index, and the top-left position of the state grid in play-field
coordinates. -/
structure Tetromino where
  states : List (List (List Cell))
  current_state : Nat
  position : Position

/-- `Tetromino::get_cells` from the source: the current rotation-state grid. -/
def Tetromino.get_cells (t : Tetromino) : List (List Cell) :=
  t.states.getD t.current_state []

/-- Total lookup of grid cell (r, c); out-of-range reads return `EMPTY_CELL`.
The source indexes `play_grid[r][c]` directly and only does so after its
bounds checks have passed, so within those bounds this agrees with the code. -/
def cellAt (g : Grid) (r c : Nat) : Cell := (List.getD g r []).getD c EMPTY_CELL

/-- `Game::can_move` from the source: for every occupied cell of the piece's
current state (iterated by row and column index, as `enumerate` does), compute
the absolute grid coordinates and reject when the column is outside
[0, PLAY_WIDTH), the row is ≥ PLAY_HEIGHT, or the target grid cell is
occupied. -/
def canMove (g : Grid) (t : Tetromino) (newRow newCol : Int) : Bool :=
  (List.range t.get_cells.length).all fun tRow =>
    (List.range ((t.get_cells.getD tRow []).length)).all fun tCol =>
      let cell := (t.get_cells.getD tRow []).getD tCol EMPTY_CELL
      if cell.symbols == Sym.squareBrackets then
        let gridX : Int := newCol + tCol
        let gridY : Int := newRow + tRow
        !(gridX < 0 || gridX ≥ (PLAY_WIDTH : Int) || gridY ≥ (PLAY_HEIGHT : Int) ||
          isOccupied (cellAt g gridY.toNat gridX.toNat))
      else
        true

/-- `Tetromino::rotate` from the source: the candidate state index is
`(current_state + 1) % states.len()`; `can_move` is asked with that state at
the unchanged position, and only on success is the new index committed. The
position is never changed. -/
def rotate (g : Grid) (t : Tetromino) : Tetromino :=
  let nextState := (t.current_state + 1) % t.states.length
  let tempTetromino : Tetromino := { t with current_state := nextState }
  if canMove g tempTetromino t.position.row t.position.col then
    { t with current_state := nextState }
  else
    t

/-- Iterated application of `rotate` on a fixed grid. -/
def rotateN (g : Grid) (t : Tetromino) : Nat → Tetromino
  | 0 => t
  | n + 1 => rotate g (rotateN g t n)

/-- A row is filled when every cell in the playable width is occupied; this is
the `play_grid[row_index][0..PLAY_WIDTH].iter().all(...)` test of
`clear_filled_rows`. -/
def rowFilled (row : List Cell) : Bool :=
  (row.take PLAY_WIDTH).all fun cell => cell.symbols == Sym.squareBrackets

/-- The `filled_rows` vector of `clear_filled_rows`: row indices scanned from
`PLAY_HEIGHT - 1` down to 0 and kept when the row is filled, so the list is in
decreasing order. -/
def filledRows (g : Grid) : List Nat :=
  ((List.range PLAY_HEIGHT).reverse).filter fun rowIndex => rowFilled (g.getD rowIndex [])

/-- One removal step of `clear_filled_rows`: `play_grid.remove(row_index)`
followed by `play_grid.insert(0, new_row)` with a fully empty row. -/
def clearStep (g : Grid) (rowIndex : Nat) : Grid :=
  List.replicate PLAY_WIDTH EMPTY_CELL :: g.eraseIdx rowIndex

/-- The order in which `clear_filled_rows` processes the filled rows:
`filled_rows.iter().rev()`, i.e. the reverse of the decreasing scan, which is
increasing. -/
def processOrder (g : Grid) : List Nat := (filledRows g).reverse

/-- The score table of `clear_filled_rows`: the `match num_filled_rows`
statement awarding 100/300/500/800 times `(level + 1)` for 1/2/3/4 rows and
nothing otherwise. -/
def scoreDelta (numFilledRows level : Nat) : Nat :=
  match numFilledRows with
  | 1 => 100 * (level + 1)
  | 2 => 300 * (level + 1)
  | 3 => 500 * (level + 1)
  | 4 => 800 * (level + 1)
  | _ => 0

/-- Result of `Game::clear_filled_rows`: the updated grid, lines counter and
score. -/
structure ClearResult where
  grid : Grid
  lines : Nat
  score : Nat

/-- `Game::clear_filled_rows` from the source: collect the filled row indices
(top scan in decreasing order), then for each index of the reversed list
remove that row, insert a fully empty row at the top, and increment `lines`;
finally add the score delta for the number of rows cleared. -/
def clearFilledRows (g : Grid) (lines score level : Nat) : ClearResult :=
  let filled := filledRows g
  let st := filled.reverse.foldl (fun st rowIndex =>
    (clearStep st.1 rowIndex, st.2 + 1)) (g, lines)
  { grid := st.1
    lines := st.2
    score := score + scoreDelta filled.length level }

/-- Write one cell of the grid, `play_grid[r][c] = cell`. -/
def setCell (g : Grid) (r c : Nat) (cell : Cell) : Grid :=
  g.set r ((g.getD r []).set c cell)

/-- The grid mutation of `Game::lock_tetromino`: every occupied cell of the
piece's current state is copied into the grid at its absolute coordinates. -/
def lockTetromino (g : Grid) (t : Tetromino) : Grid :=
  (List.range t.get_cells.length).foldl (fun g1 ty =>
    (List.range ((t.get_cells.getD ty []).length)).foldl (fun g2 tx =>
      let cell := (t.get_cells.getD ty []).getD tx EMPTY_CELL
      if cell.symbols == Sym.squareBrackets then
        setCell g2 (t.position.row + ty).toNat (t.position.col + tx).toNat cell
      else
        g2) g1) g

/-- `tetromino_width` from the source: the number of columns of the state grid
that contain at least one occupied cell. -/
def tetromino_width (t : List (List Cell)) : Nat :=
  ((List.range (t.headD []).length).filter fun col =>
    0 < (t.filter fun row => (row.getD col EMPTY_CELL).symbols != Sym.space).length).length

/-- The repositioning of `Game::move_to_next`: the next piece becomes current
with `row = 0` and `col = (PLAY_WIDTH - tetromino_width(states[0])) / 2`. -/
def moveToNext (next : Tetromino) : Tetromino :=
  { next with
    position :=
      { row := 0
        col := ((PLAY_WIDTH - tetromino_width (next.states.getD 0 [])) : Int) / 2 } }

/-- `Game::is_game_over` from the source: the current piece is tested one
column left, one column right, one row down, and rotated in place to the next
state; the game is over exactly when all four tests fail. -/
def isGameOver (g : Grid) (t : Tetromino) : Bool :=
  let nextState := (t.current_state + 1) % t.states.length
  let tempTetromino : Tetromino := { t with current_state := nextState }
  !canMove g t t.position.row (t.position.col - 1) &&
  !canMove g t t.position.row (t.position.col + 1) &&
  !canMove g t (t.position.row + 1) t.position.col &&
  !canMove g tempTetromino t.position.row t.position.col

/-- Result of `Game::lock_and_move_to_next`: grid/lines/score after locking
and clearing, the freshly spawned current piece, and whether game over was
detected on it. -/
structure AdvanceResult where
  cleared : ClearResult
  spawned : Tetromino
  gameOver : Bool

/-- `Game::lock_and_move_to_next` from the source: lock the piece into the
grid, clear filled rows, spawn the next piece as current (repositioned by
`move_to_next`), then evaluate `is_game_over` on the fresh piece. -/
def lockAndAdvance (g : Grid) (t next : Tetromino) (lines score level : Nat) :
    AdvanceResult :=
  let cleared := clearFilledRows (lockTetromino g t) lines score level
  let spawned := moveToNext next
  { cleared := cleared
    spawned := spawned
    gameOver := isGameOver cleared.grid spawned }

/-- The two ways `Game::handle_game_over` can continue after the multiplayer
notification: prompting for a name (`new_high_score`) or directly showing the
leaderboard (`show_high_scores`). -/
inductive GameOverPath where
  | promptName
  | showHighScores
deriving DecidableEq, Repr

/-- The branching of `Game::handle_game_over` from the source: a zero score
goes straight to the leaderboard; otherwise fewer than 5 stored records prompt
for a name, and with 5 or more records the score is compared against the
player at rank 5 — only a strictly greater score prompts. `count` is the
`i64` returned by the repository and `fifthScore` the rank-5 record's score. -/
def gameOverPath (score : Nat) (count : Int) (fifthScore : Nat) : GameOverPath :=
  if score = 0 then
    GameOverPath.showHighScores
  else if count < 5 then
    GameOverPath.promptName
  else if score ≤ fifthScore then
    GameOverPath.showHighScores
  else
    GameOverPath.promptName

/-- The level-up step at the top of `Game::handle_event`'s loop: when
`level <= MAX_LEVEL` and `lines >= LINES_PER_LEVEL * (level + 1)`, increment
the level and shrink the drop interval by a tenth. Returns the new
`(level, drop_interval)`. -/
def levelUp (level lines : Nat) (dropInterval : Nat) : Nat × Nat :=
  if level ≤ MAX_LEVEL ∧ lines ≥ LINES_PER_LEVEL * (level + 1) then
    (level + 1, dropInterval - dropInterval / 10)
  else
    (level, dropInterval)

/-- Iterated level-up steps, fed with the lines count observed at each step. -/
def levelUpIter (start : Nat × Nat) : List Nat → Nat × Nat
  | [] => start
  | lines :: rest => levelUpIter (levelUp start.1 lines start.2) rest

/-- The candidate fill cells used both by the `ClearedRows` handler and by
`create_grid` in the source: `vec![I_CELL, O_CELL, T_CELL, S_CELL, Z_CELL,
T_CELL, L_CELL]` (note the source lists `T_CELL` twice). -/
def garbageCells : List Cell :=
  [I_CELL, O_CELL, T_CELL, S_CELL, Z_CELL, T_CELL, L_CELL]

/-- A garbage row as built by the source: `vec![random_cell; PLAY_WIDTH]` with
`new_row[random_column] = EMPTY_CELL`. The two random draws (cell index and
empty column) are passed in explicitly. -/
def mkGarbageRow (cellIdx emptyCol : Nat) : List Cell :=
  (List.replicate PLAY_WIDTH (garbageCells.getD cellIdx EMPTY_CELL)).set emptyCol EMPTY_CELL

/-- The `MessageType::ClearedRows(rows)` arm of `Game::handle_event`: one
random cell and one random empty column are drawn, a single garbage row is
built from them, and then `rows` times the top row is removed
(`play_grid.remove(0)`) and a clone of that row inserted at index
`PLAY_HEIGHT - 1`. -/
def handleClearedRows (g : Grid) (rows : Nat) (cellIdx emptyCol : Nat) : Grid :=
  let newRow := mkGarbageRow cellIdx emptyCol
  (List.range rows).foldl (fun g1 _ =>
    List.insertIdx (PLAY_HEIGHT - 1) newRow (g1.eraseIdx 0)) g

/-- `create_grid` from the source: `height - n` fully empty rows of `width`
cells, followed by `n` handicap rows each built from its own pair of random
draws (cell index, empty column) — the randomness is drawn inside the loop,
once per row. The draws are passed in as a function from the loop
iteration. -/
def createGrid (width height nfilled : Nat) (draws : Nat → Nat × Nat) : Grid :=
  List.replicate (height - nfilled) (List.replicate width EMPTY_CELL) ++
    (List.range nfilled).map fun k => mkGarbageRow (draws k).1 (draws k).2

/-- The J-piece rotation states, copied from the shape catalog in
`RandomTetromino::spawn`. -/
def jTetrominoStates : List (List (List Cell)) :=
  [ [ [J_CELL, EMPTY_CELL, EMPTY_CELL],
      [J_CELL, J_CELL, J_CELL],
      [EMPTY_CELL, EMPTY_CELL, EMPTY_CELL] ],
    [ [EMPTY_CELL, J_CELL, J_CELL],
      [EMPTY_CELL, J_CELL, EMPTY_CELL],
      [EMPTY_CELL, J_CELL, EMPTY_CELL] ],
    [ [EMPTY_CELL, EMPTY_CELL, EMPTY_CELL],
      [J_CELL, J_CELL, J_CELL],
      [EMPTY_CELL, EMPTY_CELL, J_CELL] ],
    [ [EMPTY_CELL, J_CELL, EMPTY_CELL],
      [EMPTY_CELL, J_CELL, EMPTY_CELL],
      [J_CELL, J_CELL, EMPTY_CELL] ] ]

/-- A fully empty play row. -/
def emptyRow : List Cell := List.replicate PLAY_WIDTH EMPTY_CELL

/-- A fully occupied play row (I-colored). -/
def fullRow : List Cell := List.replicate PLAY_WIDTH I_CELL

/-- The empty 20-row play grid. -/
def emptyGrid : Grid := List.replicate PLAY_HEIGHT emptyRow

/-- Total count of occupied cells in a grid. -/
def occupiedCount (g : Grid) : Nat :=
  (g.map fun row => row.countP isOccupied).sum

/-- Structural recomputation of the filled row indices (in increasing order):
index 0 when the head row is filled, then the shifted indices of the tail.
Used to reason about `filledRows` by induction. -/
def idxF : List (List Cell) → List Nat
  | [] => []
  | r :: rs => (if rowFilled r then [0] else []) ++ (idxF rs).map (· + 1)

/-- A J piece at position (0, 0) in state 0. -/
def jT : Tetromino := ⟨jTetrominoStates, 0, ⟨0, 0⟩⟩

/-- A grid that is empty except for one occupied cell at row 2, column 2. -/
def gBlock : Grid := (List.replicate PLAY_HEIGHT emptyRow).set 2 (emptyRow.set 2 J_CELL)

/-- A grid whose rows 18 and 19 are completely filled and all others empty. -/
def gFill2 : Grid :=
  ((List.replicate PLAY_HEIGHT emptyRow).set 18 fullRow).set 19 fullRow

/-- A grid whose row 19 is filled and whose row 18 has a single occupied
cell. -/
def gMix : Grid :=
  ((List.replicate PLAY_HEIGHT emptyRow).set 19 fullRow).set 18 (emptyRow.set 0 I_CELL)

/-! ### Helper lemmas about the line-clearing fold -/

theorem rowFilled_emptyRow : rowFilled emptyRow = false := by decide

theorem range_filter_eq_idxF (g : List (List Cell)) :
    (List.range g.length).filter (fun i => rowFilled (g.getD i [])) = idxF g := by
  induction g with
  | nil => simp [idxF]
  | cons r rs ih =>
    show (List.range (rs.length + 1)).filter _ = _
    rw [List.range_succ_eq_map, List.filter_cons, List.filter_map]
    simp only [List.getD_cons_zero, List.getD_cons_succ, Function.comp_def, Nat.succ_eq_add_one,
      idxF]
    rw [ih]
    by_cases h : rowFilled r = true
    · simp [h]
    · simp [h]

theorem idxF_length (g : List (List Cell)) :
    (idxF g).length = (g.filter rowFilled).length := by
  induction g with
  | nil => rfl
  | cons r rs ih =>
    by_cases h : rowFilled r = true <;> simp [idxF, h, ih, List.filter_cons]

theorem processOrder_eq_idxF (g : Grid) (hlen : g.length = PLAY_HEIGHT) :
    processOrder g = idxF g := by
  unfold processOrder filledRows
  rw [List.filter_reverse, List.reverse_reverse, ← hlen, range_filter_eq_idxF]

theorem foldl_clearStep_pair (l : List Nat) (g : Grid) (n : Nat) :
    l.foldl (fun st i => (clearStep st.1 i, st.2 + 1)) (g, n) =
      (l.foldl clearStep g, n + l.length) := by
  induction l generalizing g n with
  | nil => rfl
  | cons i rest ih => simp [List.foldl_cons, ih, Nat.add_assoc, Nat.add_comm 1]

theorem foldl_clearStep_char (rs : List (List Cell)) :
    ∀ pre : List (List Cell), (∀ r ∈ pre, rowFilled r = false) →
      ((idxF rs).map (· + pre.length)).foldl clearStep (pre ++ rs) =
        List.replicate (idxF rs).length emptyRow ++ pre ++
          rs.filter (fun r => !rowFilled r) := by
  induction rs with
  | nil => intro pre _; simp [idxF]
  | cons r rs ih =>
    intro pre hpre
    by_cases h : rowFilled r = true
    · have hlist : (idxF (r :: rs)).map (· + pre.length) =
          pre.length :: (idxF rs).map (fun i => i + (emptyRow :: pre).length) := by
        simp [idxF, h, List.map_map, Function.comp_def]
        intro i _
        omega
      have hstep : clearStep (pre ++ r :: rs) pre.length = (emptyRow :: pre) ++ rs := by
        unfold clearStep
        rw [List.eraseIdx_append_of_length_le (Nat.le_refl _)]
        simp [emptyRow]
      have hpre2 : ∀ x ∈ emptyRow :: pre, rowFilled x = false := by
        intro x hx
        rcases List.mem_cons.mp hx with hx | hx
        · subst hx; exact rowFilled_emptyRow
        · exact hpre x hx
      rw [hlist, List.foldl_cons, hstep, ih (emptyRow :: pre) hpre2]
      simp [idxF, h, List.append_assoc]
      rw [List.replicate_succ', List.append_assoc, List.singleton_append]
    · have h' : rowFilled r = false := Bool.not_eq_true _ ▸ Bool.of_not_eq_true h
      have hlist : (idxF (r :: rs)).map (· + pre.length) =
          (idxF rs).map (fun i => i + (pre ++ [r]).length) := by
        simp [idxF, h', List.map_map, Function.comp_def]
        intro i _
        omega
      have hpre2 : ∀ x ∈ pre ++ [r], rowFilled x = false := by
        intro x hx
        rcases List.mem_append.mp hx with hx | hx
        · exact hpre x hx
        · rw [List.mem_singleton.mp hx]; exact h'
      have hre : pre ++ r :: rs = (pre ++ [r]) ++ rs := by
        rw [List.append_assoc, List.singleton_append]
      rw [hlist, hre, ih (pre ++ [r]) hpre2]
      simp [idxF, h', List.append_assoc]

theorem foldl_clearStep_valid (rs : List (List Cell)) :
    ∀ pre : List (List Cell), (∀ r ∈ pre, rowFilled r = false) →
      ∀ l₁ i l₂, (idxF rs).map (· + pre.length) = l₁ ++ i :: l₂ →
        rowFilled ((l₁.foldl clearStep (pre ++ rs)).getD i []) = true := by
  induction rs with
  | nil =>
    intro pre _ l₁ i l₂ heq
    simp [idxF] at heq
  | cons r rs ih =>
    intro pre hpre l₁ i l₂ heq
    by_cases h : rowFilled r = true
    · have hlist : (idxF (r :: rs)).map (· + pre.length) =
          pre.length :: (idxF rs).map (fun i => i + (emptyRow :: pre).length) := by
        simp [idxF, h, List.map_map, Function.comp_def]
        intro i _
        omega
      rw [hlist] at heq
      cases l₁ with
      | nil =>
        simp only [List.nil_append] at heq
        obtain ⟨hi, _⟩ := List.cons.inj heq
        subst hi
        simp only [List.foldl_nil]
        have : (pre ++ r :: rs).getD pre.length [] = r := by
          simp [List.getD_eq_getElem?_getD, List.getElem?_append_right (Nat.le_refl _)]
        rw [this]
        exact h
      | cons a l₁ =>
        simp only [List.cons_append] at heq
        obtain ⟨ha, hrest⟩ := List.cons.inj heq
        subst ha
        have hstep : clearStep (pre ++ r :: rs) pre.length = (emptyRow :: pre) ++ rs := by
          unfold clearStep
          rw [List.eraseIdx_append_of_length_le (Nat.le_refl _)]
          simp [emptyRow]
        have hpre2 : ∀ x ∈ emptyRow :: pre, rowFilled x = false := by
          intro x hx
          rcases List.mem_cons.mp hx with hx | hx
          · subst hx; exact rowFilled_emptyRow
          · exact hpre x hx
        rw [List.foldl_cons, hstep]
        exact ih (emptyRow :: pre) hpre2 l₁ i l₂ hrest
    · have h' : rowFilled r = false := Bool.not_eq_true _ ▸ Bool.of_not_eq_true h
      have hlist : (idxF (r :: rs)).map (· + pre.length) =
          (idxF rs).map (fun i => i + (pre ++ [r]).length) := by
        simp [idxF, h', List.map_map, Function.comp_def]
        intro i _
        omega
      rw [hlist] at heq
      have hpre2 : ∀ x ∈ pre ++ [r], rowFilled x = false := by
        intro x hx
        rcases List.mem_append.mp hx with hx | hx
        · exact hpre x hx
        · rw [List.mem_singleton.mp hx]; exact h'
      have hre : pre ++ r :: rs = (pre ++ [r]) ++ rs := by
        rw [List.append_assoc, List.singleton_append]
      rw [hre]
      exact ih (pre ++ [r]) hpre2 l₁ i l₂ heq

theorem filter_length_compl (p : List Cell → Bool) (g : List (List Cell)) :
    (g.filter p).length + (g.filter fun r => !p r).length = g.length := by
  induction g with
  | nil => rfl
  | cons r rs ih =>
    by_cases h : p r = true <;> simp [List.filter_cons, h] <;> omega

theorem occupiedCount_filter_le (p : List Cell → Bool) (g : List (List Cell)) :
    occupiedCount (g.filter p) ≤ occupiedCount g := by
  induction g with
  | nil => exact Nat.le_refl _
  | cons r rs ih =>
    simp only [occupiedCount, List.filter_cons] at ih ⊢
    by_cases h : p r = true
    · rw [if_pos h]
      simp only [List.map_cons, List.sum_cons]
      exact Nat.add_le_add_left ih _
    · rw [if_neg h]
      simp only [List.map_cons, List.sum_cons]
      exact Nat.le_trans ih (Nat.le_add_left _ _)

theorem occupiedCount_append (g₁ g₂ : List (List Cell)) :
    occupiedCount (g₁ ++ g₂) = occupiedCount g₁ + occupiedCount g₂ := by
  simp [occupiedCount]

theorem occupiedCount_replicate_emptyRow (k : Nat) :
    occupiedCount (List.replicate k emptyRow) = 0 := by
  induction k with
  | zero => rfl
  | succ k ih =>
    simp only [List.replicate_succ, occupiedCount, List.map_cons, List.sum_cons] at ih ⊢
    rw [ih]
    decide

/-- The grid produced by `clearFilledRows` on a full-height grid, in closed
form: the filled rows are gone, the non-filled rows keep their relative order,
and fresh empty rows pad the top. -/
theorem clearFilledRows_grid_char (g : Grid) (lines score level : Nat)
    (hlen : g.length = PLAY_HEIGHT) :
    (clearFilledRows g lines score level).grid =
      List.replicate ((g.filter rowFilled).length) emptyRow ++
        g.filter (fun r => !rowFilled r) := by
  have hmain := foldl_clearStep_char g [] (by intro r hr; simp at hr)
  simp only [List.length_nil, Nat.add_zero, List.nil_append, List.append_nil,
    List.map_id'] at hmain
  show ((processOrder g).foldl (fun st rowIndex => (clearStep st.1 rowIndex, st.2 + 1))
    (g, lines)).1 = _
  rw [processOrder_eq_idxF g hlen, foldl_clearStep_pair, hmain, idxF_length]

/-- The lines counter after `clearFilledRows`, in closed form. -/
theorem clearFilledRows_lines_char (g : Grid) (lines score level : Nat)
    (hlen : g.length = PLAY_HEIGHT) :
    (clearFilledRows g lines score level).lines = lines + (g.filter rowFilled).length := by
  show ((processOrder g).foldl (fun st rowIndex => (clearStep st.1 rowIndex, st.2 + 1))
    (g, lines)).2 = _
  rw [processOrder_eq_idxF g hlen, foldl_clearStep_pair, idxF_length]

/-- The number of filled row indices collected by `clear_filled_rows`, in
closed form. -/
theorem filledRows_length_char (g : Grid) (hlen : g.length = PLAY_HEIGHT) :
    (filledRows g).length = (g.filter rowFilled).length := by
  have : (filledRows g).length = (processOrder g).length := by
    simp [processOrder]
  rw [this, processOrder_eq_idxF g hlen, idxF_length]

/-! ### Claim theorems -/

/-- C2: for every grid of PLAY_HEIGHT rows containing exactly k filled rows,
`clear_filled_rows` removes those k rows and inserts k fully-empty rows at the
top (every previously non-filled row is preserved, shifted down, in order),
the row count stays PLAY_HEIGHT, the total occupied-cell count never
increases, and `lines` increases by exactly k. -/
theorem clear_filled_rows_conservation (g : Grid) (lines score level k : Nat)
    (hlen : g.length = PLAY_HEIGHT) (hk : (g.filter rowFilled).length = k) :
    (clearFilledRows g lines score level).grid =
        List.replicate k emptyRow ++ g.filter (fun r => !rowFilled r) ∧
      (clearFilledRows g lines score level).grid.length = PLAY_HEIGHT ∧
      occupiedCount (clearFilledRows g lines score level).grid ≤ occupiedCount g ∧
      (clearFilledRows g lines score level).lines = lines + k := by
  have hchar := clearFilledRows_grid_char g lines score level hlen
  rw [hk] at hchar
  refine ⟨hchar, ?_, ?_, ?_⟩
  · rw [hchar]
    have hc := filter_length_compl rowFilled g
    simp only [List.length_append, List.length_replicate]
    omega
  · rw [hchar, occupiedCount_append, occupiedCount_replicate_emptyRow]
    simpa using occupiedCount_filter_le (fun r => !rowFilled r) g
  · rw [clearFilledRows_lines_char g lines score level hlen, hk]

/-- Witness for C2 at a concrete grid with exactly one filled row. -/
theorem clear_filled_rows_conservation_witness :
    (gMix.length = PLAY_HEIGHT ∧ (gMix.filter rowFilled).length = 1) ∧
      ((clearFilledRows gMix 7 0 0).grid =
          List.replicate 1 emptyRow ++ gMix.filter (fun r => !rowFilled r) ∧
        (clearFilledRows gMix 7 0 0).grid.length = PLAY_HEIGHT ∧
        occupiedCount (clearFilledRows gMix 7 0 0).grid ≤ occupiedCount gMix ∧
        (clearFilledRows gMix 7 0 0).lines = 7 + 1) :=
  ⟨⟨by decide, by decide⟩,
    clear_filled_rows_conservation gMix 7 0 0 1 (by decide) (by decide)⟩

/-- C3: clearing exactly n rows at level L awards 100/300/500/800 times
(L + 1) points for n = 1/2/3/4 and nothing for n = 0. -/
theorem scoring_table (g : Grid) (lines score level n : Nat)
    (hlen : g.length = PLAY_HEIGHT) (hn : (g.filter rowFilled).length = n)
    (hn4 : n ≤ 4) :
    (clearFilledRows g lines score level).score = score +
      (if n = 1 then 100 * (level + 1)
       else if n = 2 then 300 * (level + 1)
       else if n = 3 then 500 * (level + 1)
       else if n = 4 then 800 * (level + 1)
       else 0) := by
  show score + scoreDelta (filledRows g).length level = _
  rw [filledRows_length_char g hlen, hn]
  interval_cases n <;> simp [scoreDelta]

/-- Witness for C3: one cleared row at level 2 awards 300 points. -/
theorem scoring_table_witness :
    (gMix.length = PLAY_HEIGHT ∧ (gMix.filter rowFilled).length = 1 ∧ 1 ≤ 4) ∧
      (clearFilledRows gMix 0 40 2).score = 40 +
        (if 1 = 1 then 100 * (2 + 1)
         else if 1 = 2 then 300 * (2 + 1)
         else if 1 = 3 then 500 * (2 + 1)
         else if 1 = 4 then 800 * (2 + 1)
         else 0) :=
  ⟨⟨by decide, by decide, by decide⟩,
    scoring_table gMix 0 40 2 1 (by decide) (by decide) (by decide)⟩

/-- C6 counterexample: on a grid whose filled rows are 18 and 19, the
processing order is [18, 19] — the highest-indexed filled row (19) is not
removed first, refuting the claimed decreasing processing order. -/
theorem clear_order_counterexample :
    processOrder gFill2 = [18, 19] ∧ (processOrder gFill2).head? ≠ some 19 := by
  constructor
  · decide
  · decide

/-- C6 amended: `clear_filled_rows` processes the filled row indices in
increasing order (the lowest-indexed, top-most filled row is removed first),
and this order keeps the remaining recorded indices valid: whenever the
processing order splits as l₁ ++ i :: l₂, after performing the removals of l₁
the row at index i is still a filled row. -/
theorem clear_order_ascending_valid (g : Grid) (hlen : g.length = PLAY_HEIGHT) :
    List.Sorted (· < ·) (processOrder g) ∧
      ∀ l₁ i l₂, processOrder g = l₁ ++ i :: l₂ →
        rowFilled ((l₁.foldl clearStep g).getD i []) = true := by
  constructor
  · unfold processOrder filledRows
    rw [List.filter_reverse, List.reverse_reverse]
    exact List.Pairwise.filter _ (List.sorted_lt_range PLAY_HEIGHT)
  · intro l₁ i l₂ heq
    rw [processOrder_eq_idxF g hlen] at heq
    have hv := foldl_clearStep_valid g [] (by intro r hr; simp at hr) l₁ i l₂
      (by simpa using heq)
    simpa using hv

/-- Witness for C6 amended at the two-filled-row grid. -/
theorem clear_order_ascending_valid_witness :
    gFill2.length = PLAY_HEIGHT ∧
      (List.Sorted (· < ·) (processOrder gFill2) ∧
        ∀ l₁ i l₂, processOrder gFill2 = l₁ ++ i :: l₂ →
          rowFilled ((l₁.foldl clearStep gFill2).getD i []) = true) :=
  ⟨by decide, clear_order_ascending_valid gFill2 (by decide)⟩

/-- C7 counterexample: starting from the valid level 20 (= MAX_LEVEL) with 420
lines cleared, the level-up step raises the level to 21, which exceeds
MAX_LEVEL — the guard `level <= MAX_LEVEL` permits one step past the cap. -/
theorem level_cap_counterexample :
    20 ≤ MAX_LEVEL ∧ (levelUp 20 420 500).1 = MAX_LEVEL + 1 ∧
      ¬((levelUp 20 420 500).1 ≤ MAX_LEVEL) := by
  decide

/-- C7 amended: in every reachable state of a session started at a level of at
most MAX_LEVEL, the level satisfies level ≤ MAX_LEVEL + 1 = 21: the level-up
step, guarded by `level ≤ MAX_LEVEL`, can raise the level to MAX_LEVEL + 1 but
never beyond. -/
theorem level_bounded_by_max_succ (start di : Nat) (hs : start ≤ MAX_LEVEL)
    (seq : List Nat) : (levelUpIter (start, di) seq).1 ≤ MAX_LEVEL + 1 := by
  have key : ∀ (s : List Nat) (st : Nat × Nat), st.1 ≤ MAX_LEVEL + 1 →
      (levelUpIter st s).1 ≤ MAX_LEVEL + 1 := by
    intro s
    induction s with
    | nil => intro st h; exact h
    | cons lines rest ih =>
      intro st h
      show (levelUpIter (levelUp st.1 lines st.2) rest).1 ≤ MAX_LEVEL + 1
      apply ih
      unfold levelUp
      split
      · next hcond => exact Nat.add_le_add_right hcond.1 1
      · exact h
  exact key seq (start, di) (Nat.le_succ_of_le hs)

/-- Witness for C7 amended: a session started at level 0 that levels up once
stays within the bound. -/
theorem level_bounded_by_max_succ_witness :
    0 ≤ MAX_LEVEL ∧ (levelUpIter (0, 500) [20, 40]).1 ≤ MAX_LEVEL + 1 :=
  ⟨by decide, level_bounded_by_max_succ 0 500 (by decide) [20, 40]⟩

/-- C8 counterexample: a J piece at (0, 0) on a grid whose only occupied cell
is (2, 2) has its first rotation succeed (state 1 is placeable) but its second
blocked (state 2 needs the occupied cell), so after states.len() = 4
applications of rotate the state index is 1, not the original 0. -/
theorem rotate_cycle_counterexample :
    jT.states.length = 4 ∧ jT.current_state = 0 ∧
      (rotateN gBlock jT 4).current_state = 1 := by
  decide

/-- Helper: when every rotation state of the piece is placeable at its
position, each application of `rotate` advances the state index by one
modulo the number of states. -/
theorem rotateN_all_placeable (g : Grid) (t : Tetromino)
    (hs : t.current_state < t.states.length)
    (hall : ∀ j, j < t.states.length →
      canMove g { t with current_state := j } t.position.row t.position.col = true) :
    ∀ n, rotateN g t n =
      { t with current_state := (t.current_state + n) % t.states.length } := by
  intro n
  induction n with
  | zero =>
    show t = _
    rw [Nat.add_zero, Nat.mod_eq_of_lt hs]
  | succ n ih =>
    have hlen : 0 < t.states.length := Nat.lt_of_le_of_lt (Nat.zero_le _) hs
    show rotate g (rotateN g t n) = _
    rw [ih]
    unfold rotate
    simp only
    rw [if_pos (hall _ (Nat.mod_lt _ hlen))]
    congr 1
    rw [Nat.mod_add_mod, Nat.add_assoc]

/-- C8 amended: `rotate` never changes the position, and whenever every
rotation state of the piece is placeable at its position (so each of the
states.len() applications passes its collision test), applying rotate
states.len() times returns the piece to its original state index and
position. On an obstructed grid only the position part survives. -/
theorem rotate_cycle_amended (g : Grid) (t : Tetromino)
    (hs : t.current_state < t.states.length)
    (hall : ∀ j, j < t.states.length →
      canMove g { t with current_state := j } t.position.row t.position.col = true) :
    (rotateN g t t.states.length).current_state = t.current_state ∧
      (rotateN g t t.states.length).position = t.position := by
  rw [rotateN_all_placeable g t hs hall t.states.length]
  constructor
  · show (t.current_state + t.states.length) % t.states.length = t.current_state
    rw [Nat.add_mod_right, Nat.mod_eq_of_lt hs]
  · rfl

/-- Witness for C8 amended: the J piece on an empty grid, where all four
rotation states are placeable, returns to state 0 after 4 rotations. -/
theorem rotate_cycle_amended_witness :
    (jT.current_state < jT.states.length ∧
      ∀ j, j < jT.states.length →
        canMove emptyGrid { jT with current_state := j } jT.position.row
          jT.position.col = true) ∧
      ((rotateN emptyGrid jT jT.states.length).current_state = jT.current_state ∧
        (rotateN emptyGrid jT jT.states.length).position = jT.position) :=
  ⟨⟨by decide, by decide⟩, rotate_cycle_amended emptyGrid jT (by decide) (by decide)⟩

/-- C1: for a position with row ≥ 0, `can_move` returns false iff some
occupied cell of the piece's current state, placed there, would lie at a
column outside [0, PLAY_WIDTH), at a row ≥ PLAY_HEIGHT, or on an
already-occupied grid cell. Rows above 0 are never range-checked: the only
row test is against PLAY_HEIGHT. -/
theorem can_move_true_iff (g : Grid) (t : Tetromino) (row col : Int) :
    canMove g t row col = true ↔
      ∀ tr tc, tr < t.get_cells.length → tc < (t.get_cells.getD tr []).length →
        isOccupied ((t.get_cells.getD tr []).getD tc EMPTY_CELL) = true →
        (0 ≤ col + tc ∧ col + tc < (PLAY_WIDTH : Int) ∧
          row + tr < (PLAY_HEIGHT : Int) ∧
          isOccupied (cellAt g (row + tr).toNat (col + tc).toNat) = false) := by
  unfold canMove
  rw [List.all_eq_true]
  constructor
  · intro h tr tc htr htc hocc
    have h1 := h tr (List.mem_range.mpr htr)
    rw [List.all_eq_true] at h1
    have h2 := h1 tc (List.mem_range.mpr htc)
    simp only at h2
    rw [if_pos (by simpa [isOccupied] using hocc)] at h2
    simp only [Bool.not_eq_true', Bool.or_eq_false_iff, decide_eq_false_iff_not] at h2
    refine ⟨by omega, by omega, by omega, ?_⟩
    simpa [isOccupied] using h2.2
  · intro h tr htr
    rw [List.all_eq_true]
    intro tc htc
    simp only
    by_cases hocc : (((t.get_cells.getD tr []).getD tc EMPTY_CELL).symbols ==
        Sym.squareBrackets) = true
    · rw [if_pos hocc]
      obtain ⟨p1, p2, p3, p4⟩ := h tr tc (List.mem_range.mp htr)
        (List.mem_range.mp htc) (by simpa [isOccupied] using hocc)
      simp only [Bool.not_eq_true', Bool.or_eq_false_iff, decide_eq_false_iff_not]
      refine ⟨⟨⟨by omega, by omega⟩, by omega⟩, ?_⟩
      simpa [isOccupied] using p4
    · rw [if_neg hocc]

/-- C1: for a position with row ≥ 0, `can_move` returns false iff some
occupied cell of the piece's current state, placed there, would lie at a
column outside [0, PLAY_WIDTH), at a row ≥ PLAY_HEIGHT, or on an
already-occupied grid cell. Rows above 0 are never range-checked: the only
row test is against PLAY_HEIGHT. -/
theorem can_move_false_iff (g : Grid) (t : Tetromino) (row col : Int)
    (_hrow : 0 ≤ row) :
    canMove g t row col = false ↔
      ∃ tr tc, tr < t.get_cells.length ∧ tc < (t.get_cells.getD tr []).length ∧
        isOccupied ((t.get_cells.getD tr []).getD tc EMPTY_CELL) = true ∧
        (col + tc < 0 ∨ (PLAY_WIDTH : Int) ≤ col + tc ∨
          (PLAY_HEIGHT : Int) ≤ row + tr ∨
          isOccupied (cellAt g (row + tr).toNat (col + tc).toNat) = true) := by
  have hb : canMove g t row col = false ↔ ¬canMove g t row col = true := by
    cases h : canMove g t row col <;> simp
  rw [hb, can_move_true_iff]
  constructor
  · intro hnot
    by_contra hne
    push_neg at hne
    apply hnot
    intro tr tc htr htc hocc
    obtain ⟨n1, n2, n3, n4⟩ := hne tr tc htr htc hocc
    exact ⟨by omega, by omega, by omega, Bool.of_not_eq_true n4⟩
  · rintro ⟨tr, tc, htr, htc, hocc, hbad⟩ hall
    obtain ⟨p1, p2, p3, p4⟩ := hall tr tc htr htc hocc
    rcases hbad with h | h | h | h
    · omega
    · omega
    · omega
    · rw [p4] at h
      exact Bool.false_ne_true h

/-- Witness for C1: the J piece on the empty grid at the origin. -/
theorem can_move_false_iff_witness :
    (0 : Int) ≤ 0 ∧
      (canMove emptyGrid jT 0 0 = false ↔
        ∃ tr tc, tr < jT.get_cells.length ∧
          tc < (jT.get_cells.getD tr []).length ∧
          isOccupied ((jT.get_cells.getD tr []).getD tc EMPTY_CELL) = true ∧
          ((0 : Int) + tc < 0 ∨ (PLAY_WIDTH : Int) ≤ 0 + tc ∨
            (PLAY_HEIGHT : Int) ≤ 0 + tr ∨
            isOccupied (cellAt emptyGrid ((0 : Int) + tr).toNat
              ((0 : Int) + tc).toNat) = true)) :=
  ⟨le_refl 0, can_move_false_iff emptyGrid jT 0 0 (le_refl 0)⟩

/-- C4: after a lock-and-advance, the game-over flag is set iff the freshly
spawned current piece fails the collision test in all four of: one column
left, one column right, one row down, and rotated in place to the next state
at the same position; if any of the four placements is legal the flag is
clear. -/
theorem game_over_after_lock_iff (g : Grid) (t next : Tetromino)
    (lines score level : Nat) :
    (lockAndAdvance g t next lines score level).gameOver = true ↔
      (let g1 := (lockAndAdvance g t next lines score level).cleared.grid
       let sp := (lockAndAdvance g t next lines score level).spawned
       canMove g1 sp sp.position.row (sp.position.col - 1) = false ∧
       canMove g1 sp sp.position.row (sp.position.col + 1) = false ∧
       canMove g1 sp (sp.position.row + 1) sp.position.col = false ∧
       canMove g1 { sp with current_state :=
           (sp.current_state + 1) % sp.states.length }
         sp.position.row sp.position.col = false) := by
  show isGameOver _ _ = true ↔ _
  unfold isGameOver
  simp only [Bool.and_eq_true, Bool.not_eq_true']
  tauto

/-- C5 counterexample: with a final score of 0 and an empty high-score store
(0 < 5 records), the code shows the leaderboard without prompting, although
fewer than N = 5 records exist — refuting the claimed iff. -/
theorem high_score_prompt_counterexample :
    gameOverPath 0 0 0 = GameOverPath.showHighScores ∧ (0 : Int) < 5 := by
  decide

/-- C5 amended: the player is prompted to enter a name iff the final score is
nonzero and (fewer than 5 records exist or the score strictly exceeds the
score of the rank-5 record); a zero final score always shows the leaderboard
without prompting. -/
theorem high_score_prompt_iff (score : Nat) (count : Int) (fifthScore : Nat) :
    gameOverPath score count fifthScore = GameOverPath.promptName ↔
      (score ≠ 0 ∧ (count < 5 ∨ fifthScore < score)) := by
  unfold gameOverPath
  split_ifs with h1 h2 h3 <;> simp_all

theorem countP_replicate (p : Cell → Bool) (a : Cell) (n : Nat) :
    (List.replicate n a).countP p = if p a then n else 0 := by
  induction n with
  | zero => simp
  | succ n ih =>
    rw [List.replicate_succ, List.countP_cons, ih]
    by_cases h : p a = true <;> simp [h]

theorem countP_set_replicate (c : Cell) (hocc : isOccupied c = true) :
    ∀ (w i : Nat), i < w →
      ((List.replicate w c).set i EMPTY_CELL).countP (fun x => !isOccupied x) = 1 ∧
        ((List.replicate w c).set i EMPTY_CELL).countP isOccupied = w - 1 := by
  have hcs : c.symbols = Sym.squareBrackets := by simpa [isOccupied] using hocc
  intro w
  induction w with
  | zero => intro i hi; omega
  | succ w ih =>
    intro i hi
    cases i with
    | zero =>
      rw [List.replicate_succ, List.set_cons_zero]
      constructor
      · rw [List.countP_cons, countP_replicate]
        simp [isOccupied, EMPTY_CELL, hcs]
      · rw [List.countP_cons, countP_replicate]
        simp [isOccupied, EMPTY_CELL, hcs]
    | succ i =>
      have hi' : i < w := Nat.lt_of_succ_lt_succ hi
      obtain ⟨ih1, ih2⟩ := ih i hi'
      rw [List.replicate_succ, List.set_cons_succ]
      constructor
      · rw [List.countP_cons, ih1]
        simp [isOccupied, hcs]
      · rw [List.countP_cons, ih2]
        simp [isOccupied, hcs]
        omega

theorem handleClearedRows_char (g : Grid) (cellIdx emptyCol : Nat)
    (hlen : g.length = PLAY_HEIGHT) :
    ∀ n, n ≤ PLAY_HEIGHT →
      handleClearedRows g n cellIdx emptyCol =
        g.drop n ++ List.replicate n (mkGarbageRow cellIdx emptyCol) := by
  intro n
  induction n with
  | zero => intro _; simp [handleClearedRows]
  | succ n ih =>
    intro hn
    have hrec := ih (Nat.le_of_succ_le hn)
    simp only [handleClearedRows] at hrec ⊢
    rw [List.range_succ, List.foldl_append, hrec, List.foldl_cons, List.foldl_nil,
      List.eraseIdx_zero]
    have hne : g.drop n ≠ [] := by
      intro hcon
      have hld := List.length_drop n g
      rw [hcon] at hld
      simp only [List.length_nil] at hld
      omega
    rw [List.tail_append_of_ne_nil hne, List.tail_drop]
    have hl : (g.drop (n + 1) ++ List.replicate n (mkGarbageRow cellIdx emptyCol)).length =
        PLAY_HEIGHT - 1 := by
      simp only [List.length_append, List.length_drop, List.length_replicate, hlen]
      omega
    rw [show PLAY_HEIGHT - 1 =
        (g.drop (n + 1) ++ List.replicate n (mkGarbageRow cellIdx emptyCol)).length
      from hl.symm]
    rw [List.insertIdx_length_self, List.append_assoc, ← List.replicate_succ']

/-- C9: processing LinesCleared(n) for 1 ≤ n ≤ PLAY_HEIGHT removes the top n
rows of the playfield (whatever they contained) and appends n garbage rows at
the bottom, each of exactly PLAY_WIDTH cells with exactly one empty cell and
the rest occupied, so the grid stays at PLAY_HEIGHT rows. -/
theorem garbage_injection (g : Grid) (n cellIdx emptyCol : Nat)
    (hlen : g.length = PLAY_HEIGHT) (_h1 : 1 ≤ n) (hn : n ≤ PLAY_HEIGHT)
    (hc : cellIdx < garbageCells.length) (he : emptyCol < PLAY_WIDTH) :
    handleClearedRows g n cellIdx emptyCol =
        g.drop n ++ List.replicate n (mkGarbageRow cellIdx emptyCol) ∧
      (handleClearedRows g n cellIdx emptyCol).length = PLAY_HEIGHT ∧
      (mkGarbageRow cellIdx emptyCol).length = PLAY_WIDTH ∧
      (mkGarbageRow cellIdx emptyCol).countP (fun c => !isOccupied c) = 1 ∧
      (mkGarbageRow cellIdx emptyCol).countP isOccupied = PLAY_WIDTH - 1 := by
  have hchar := handleClearedRows_char g cellIdx emptyCol hlen n hn
  have hocc : isOccupied (garbageCells.getD cellIdx EMPTY_CELL) = true := by
    have hall : ∀ i, i < garbageCells.length →
        isOccupied (garbageCells.getD i EMPTY_CELL) = true := by decide
    exact hall cellIdx hc
  obtain ⟨hcnt1, hcnt2⟩ :=
    countP_set_replicate (garbageCells.getD cellIdx EMPTY_CELL) hocc PLAY_WIDTH emptyCol he
  refine ⟨hchar, ?_, ?_, ?_, ?_⟩
  · rw [hchar]
    simp only [List.length_append, List.length_drop, List.length_replicate, hlen]
    omega
  · simp [mkGarbageRow]
  · simpa [mkGarbageRow] using hcnt1
  · simpa [mkGarbageRow] using hcnt2

/-- Witness for C9: two garbage rows injected into the mixed grid. -/
theorem garbage_injection_witness :
    (gMix.length = PLAY_HEIGHT ∧ 1 ≤ 2 ∧ 2 ≤ PLAY_HEIGHT ∧
        0 < garbageCells.length ∧ 3 < PLAY_WIDTH) ∧
      (handleClearedRows gMix 2 0 3 =
          gMix.drop 2 ++ List.replicate 2 (mkGarbageRow 0 3) ∧
        (handleClearedRows gMix 2 0 3).length = PLAY_HEIGHT ∧
        (mkGarbageRow 0 3).length = PLAY_WIDTH ∧
        (mkGarbageRow 0 3).countP (fun c => !isOccupied c) = 1 ∧
        (mkGarbageRow 0 3).countP isOccupied = PLAY_WIDTH - 1) :=
  ⟨⟨by decide, by decide, by decide, by decide, by decide⟩,
    garbage_injection gMix 2 0 3 (by decide) (by decide) (by decide) (by decide)
      (by decide)⟩

/-- C10: all garbage rows injected by a single LinesCleared(n) event are
pairwise identical (the random fill cell and empty column are drawn once per
event), whereas each handicap row of `create_grid` is built from its own pair
of random draws. -/
theorem garbage_rows_identical (g : Grid) (n cellIdx emptyCol : Nat)
    (hlen : g.length = PLAY_HEIGHT) (_h2 : 2 ≤ n) (hn : n ≤ PLAY_HEIGHT)
    (w h nf : Nat) (draws : Nat → Nat × Nat) :
    (∀ i j, i < n → j < n →
        (handleClearedRows g n cellIdx emptyCol).getD (PLAY_HEIGHT - n + i) [] =
          (handleClearedRows g n cellIdx emptyCol).getD (PLAY_HEIGHT - n + j) []) ∧
      ∀ k, k < nf →
        (createGrid w h nf draws).getD (h - nf + k) [] =
          mkGarbageRow (draws k).1 (draws k).2 := by
  constructor
  · intro i j hi hj
    have hchar := handleClearedRows_char g cellIdx emptyCol hlen n hn
    rw [hchar]
    have key : ∀ m, m < n →
        (g.drop n ++ List.replicate n (mkGarbageRow cellIdx emptyCol)).getD
          (PLAY_HEIGHT - n + m) [] = mkGarbageRow cellIdx emptyCol := by
      intro m hm
      have hge : (g.drop n).length ≤ PLAY_HEIGHT - n + m := by
        simp only [List.length_drop, hlen]
        omega
      rw [List.getD_eq_getElem?_getD, List.getElem?_append_right hge]
      rw [show PLAY_HEIGHT - n + m - (g.drop n).length = m by
        simp only [List.length_drop, hlen]; omega]
      rw [List.getElem?_replicate_of_lt hm]
      rfl
    rw [key i hi, key j hj]
  · intro k hk
    unfold createGrid
    have hge : (List.replicate (h - nf) (List.replicate w EMPTY_CELL)).length ≤
        h - nf + k := by
      simp only [List.length_replicate]
      omega
    rw [List.getD_eq_getElem?_getD, List.getElem?_append_right hge]
    rw [show h - nf + k -
        (List.replicate (h - nf) (List.replicate w EMPTY_CELL)).length = k by
      simp only [List.length_replicate]; omega]
    rw [List.getElem?_map, List.getElem?_range hk]
    rfl

/-- Witness for C10: two identical garbage rows on the empty grid, and a
two-row handicap grid whose rows follow their own draws. -/
theorem garbage_rows_identical_witness :
    (emptyGrid.length = PLAY_HEIGHT ∧ 2 ≤ 2 ∧ 2 ≤ PLAY_HEIGHT) ∧
      ((∀ i j, i < 2 → j < 2 →
          (handleClearedRows emptyGrid 2 1 5).getD (PLAY_HEIGHT - 2 + i) [] =
            (handleClearedRows emptyGrid 2 1 5).getD (PLAY_HEIGHT - 2 + j) []) ∧
        ∀ k, k < 2 →
          (createGrid PLAY_WIDTH PLAY_HEIGHT 2 (fun k => (k, k))).getD
              (PLAY_HEIGHT - 2 + k) [] =
            mkGarbageRow ((fun k : Nat => (k, k)) k).1 ((fun k : Nat => (k, k)) k).2) :=
  ⟨⟨by decide, by decide, by decide⟩,
    garbage_rows_identical emptyGrid 2 1 5 (by decide) (by decide) (by decide)
      PLAY_WIDTH PLAY_HEIGHT 2 (fun k => (k, k))⟩

end TetrisTui
